import Mathlib

/-!
Shallow embedding of `src/apim/cli/commands/extract-application-quality.js`
(gravitee-toolbox): the criteria-evaluation and ordered-reporting pipeline.

Library modules required by that file but not present under `src/`
(`lib/string-utils`, `lib/management-api`, `lib/cli-command`) are modelled
from the spec where a claim depends on them; each such definition carries a
doc comment starting with `Modelled from the spec:`.
-/

namespace ExtractApplicationQuality

/-! ## Constants (extract-application-quality.js lines 9-12, 21) -/

def CSV_SEPARATOR : String := ","

def DESCRIPTION_MIN_LENGTH : Nat := 30

def LIST_APPLICATIONS_TIMEOUT : Nat := 30000

def ONLY_ONE_ES_RESULT : Nat := 1

/-- Default of the `delay-period` CLI option (constructor, line 46). -/
def DELAY_PERIOD_DEFAULT : Nat := 200

/-! ## Data model

An Application as consumed by the pipeline: unique id, display name and a
free-text description. `description` is `Option String` because the
management service may return an application without a description
(JavaScript `undefined`/`null`), which matters for `APP-DF02`. -/

structure App where
  id : String
  name : String
  description : Option String
  deriving DecidableEq, Repr

/-- Catalog entry, from `getCriteria` (lines 113-135). The heterogeneous
`evaluate` closures are modelled as standalone functions below. -/
structure CriterionDef where
  reference : String
  description : String
  atRuntime : Bool
  enabled : Bool
  deriving DecidableEq, Repr

/-- `new QualityCriterion(description, reference, complied)` from
`lib/quality-criteria-converter` — a plain value object (spec §3
QualityResult). -/
structure QualityCriterion where
  description : String
  reference : String
  complied : Bool
  deriving DecidableEq, Repr

/-! ## Criteria registry (lines 109-149) -/

def nameNamingConvention : CriterionDef :=
  { reference := "APP-DF01"
    description := "Name's naming convention complied"
    atRuntime := false
    enabled := true }

def descriptionMinLength : CriterionDef :=
  { reference := "APP-DF02"
    description := "Description's length higher than " ++ toString DESCRIPTION_MIN_LENGTH
    atRuntime := false
    enabled := true }

def appUsage : CriterionDef :=
  { reference := "APP-R00"
    description := "Application usage at runtime"
    atRuntime := true
    enabled := true }

/-- `getCriteria` (lines 109-137): the memoized catalog object; JS
`Object.values` returns entries in insertion order. -/
def getCriteria : List CriterionDef :=
  [nameNamingConvention, descriptionMinLength, appUsage]

/-- Sort order used by both `getEnabledCriteria` and `evaluateCriteria`.

Modelled from the spec: `StringUtils.compare` (lib/string-utils, not under
`src/`) orders strings in "alphabetical order" (source comment line 146,
spec §3: ascending `reference`); embedded as the lexicographic order on the
strings' character lists. -/
def stringLe (a b : String) : Prop := a.data ≤ b.data

/-- The comparator passed to `.sort` in `getEnabledCriteria` (line 147). -/
def criterionDefLe (l r : CriterionDef) : Prop := stringLe l.reference r.reference

instance : DecidableRel criterionDefLe :=
  fun l r => inferInstanceAs (Decidable (l.reference.data ≤ r.reference.data))

/-- `getEnabledCriteria` (lines 139-149) as a function of the run's
`evaluate-runtime` flag (`runtimeEvaluationEnabled()`, lines 197-199):
filter enabled/applicable entries, then sort ascending by `reference`. -/
def getEnabledCriteria (runtimeEnabled : Bool) : List CriterionDef :=
  List.insertionSort criterionDefLe
    (getCriteria.filter
      (fun criteria => criteria.enabled && (!criteria.atRuntime || criteria.atRuntime == runtimeEnabled)))

/-! ## Order facts about the reference comparison -/

instance : IsTotal CriterionDef criterionDefLe :=
  ⟨fun a b => le_total a.reference.data b.reference.data⟩

instance : IsTrans CriterionDef criterionDefLe :=
  ⟨fun _ _ _ h₁ h₂ => le_trans h₁ h₂⟩

instance : IsTotal String stringLe :=
  ⟨fun a b => le_total a.data b.data⟩

instance : IsTrans String stringLe :=
  ⟨fun _ _ _ h₁ h₂ => le_trans h₁ h₂⟩

instance : IsAntisymm String stringLe :=
  ⟨fun a b h₁ h₂ => by
    have hd : a.data = b.data := le_antisymm h₁ h₂
    cases a; cases b
    exact congrArg String.mk hd⟩

/-! ## Per-resource orchestration (`evaluateCriteria`, lines 151-174)

Each enabled criterion's evaluator resolves to one boolean which is wrapped
as `new QualityCriterion(criteria.description, criteria.reference, complied)`
(line 161); the `reduce` fan-in (line 163) accumulates those results in
evaluator-completion order, i.e. in an arbitrary permutation of one result
per enabled criterion (the permutation hypothesis of the theorems below);
the accumulated list is then re-sorted ascending by `reference` (line 168). -/

/-- The single `QualityCriterion` produced for one criterion, given the
boolean each evaluator resolved to (`complies`). -/
def criterionResult (complies : CriterionDef → Bool) (criteria : CriterionDef) : QualityCriterion :=
  { description := criteria.description
    reference := criteria.reference
    complied := complies criteria }

/-- The comparator passed to `.sort` in `evaluateCriteria` (line 168). -/
def qualityLe (a b : QualityCriterion) : Prop := stringLe a.reference b.reference

instance : DecidableRel qualityLe :=
  fun a b => inferInstanceAs (Decidable (a.reference.data ≤ b.reference.data))

instance : IsTotal QualityCriterion qualityLe :=
  ⟨fun a b => le_total a.reference.data b.reference.data⟩

instance : IsTrans QualityCriterion qualityLe :=
  ⟨fun _ _ _ h₁ h₂ => le_trans h₁ h₂⟩

/-- The record emitted per application (lines 164-170): the application
together with its sorted quality results. -/
structure AppQuality where
  app : App
  quality : List QualityCriterion
  deriving DecidableEq, Repr

/-- `evaluateCriteria`'s final `map` step (lines 164-170), applied to the
fan-in accumulation `arrival`: sort by reference and pair with the app. -/
def evaluateCriteria (app : App) (arrival : List QualityCriterion) : AppQuality :=
  { app := app
    quality := List.insertionSort qualityLe arrival }

/-- The criterion columns of the CSV header, in emission order
(`doComplete`, line 216: `getEnabledCriteria().map(criteria => criteria.reference)`). -/
def headerColumns (runtimeEnabled : Bool) : List String :=
  (getEnabledCriteria runtimeEnabled).map (fun criteria => criteria.reference)

/-! ## Helper lemmas -/

theorem sorted_getEnabledCriteria (runtimeEnabled : Bool) :
    List.Sorted criterionDefLe (getEnabledCriteria runtimeEnabled) :=
  List.sorted_insertionSort criterionDefLe _

theorem sorted_headerColumns (runtimeEnabled : Bool) :
    List.Sorted stringLe (headerColumns runtimeEnabled) := by
  show List.Sorted stringLe
    ((getEnabledCriteria runtimeEnabled).map (fun criteria => criteria.reference))
  exact List.Pairwise.map (R := criterionDefLe)
    (fun criteria => criteria.reference) (fun _ _ h => h)
    (sorted_getEnabledCriteria runtimeEnabled)

theorem sorted_quality_references (arrival : List QualityCriterion) :
    List.Sorted stringLe
      ((List.insertionSort qualityLe arrival).map (fun q => q.reference)) :=
  List.Pairwise.map (R := qualityLe)
    (fun q => q.reference) (fun _ _ h => h)
    (List.sorted_insertionSort qualityLe arrival)

/-- The enabled/applicable filter condition of `getEnabledCriteria`
(line 145), as a propositional characterization. -/
theorem enabledCond_iff (criteria : CriterionDef) (runtimeEnabled : Bool) :
    (criteria.enabled && (!criteria.atRuntime || criteria.atRuntime == runtimeEnabled)) = true ↔
      criteria.enabled = true ∧ (criteria.atRuntime = false ∨ runtimeEnabled = true) := by
  cases he : criteria.enabled <;> cases ha : criteria.atRuntime <;>
    cases runtimeEnabled <;> simp

/-- A concrete application used by the witnesses. -/
def billingApp : App :=
  { id := "ab47e801-6f9b-4bc5-a7e2-27b8b5a0b9f0"
    name := "Billing - Invoicing - FR"
    description := some "Invoicing operations for the French billing scope." }

/-- C1: for every run (`runtimeEnabled`), every outcome of the evaluators
(`complies`) and every fan-in arrival order (any permutation of one result
per enabled criterion), the CSV header's criterion columns are in ascending
`reference` order and the emitted row's quality results carry exactly the
same reference sequence: header and data rows share the ascending-`reference`
column order. -/
theorem quality_columns_match_header (runtimeEnabled : Bool)
    (complies : CriterionDef → Bool) (app : App) (arrival : List QualityCriterion)
    (h : arrival.Perm ((getEnabledCriteria runtimeEnabled).map (criterionResult complies))) :
    List.Sorted stringLe (headerColumns runtimeEnabled) ∧
    (evaluateCriteria app arrival).quality.map (fun q => q.reference) =
      headerColumns runtimeEnabled := by
  refine ⟨sorted_headerColumns runtimeEnabled, ?_⟩
  have h₁ : (List.insertionSort qualityLe arrival).Perm arrival :=
    List.perm_insertionSort qualityLe arrival
  have h₂ := (h₁.trans h).map (fun q => q.reference)
  have hperm : ((List.insertionSort qualityLe arrival).map (fun q => q.reference)).Perm
      (headerColumns runtimeEnabled) := by
    simpa [List.map_map, headerColumns, criterionResult, Function.comp] using h₂
  exact List.eq_of_perm_of_sorted hperm (sorted_quality_references arrival)
    (sorted_headerColumns runtimeEnabled)

/-- Witness for C1 at a concrete input: runtime evaluation on, all
evaluators complying, results arriving in reverse reference order. -/
theorem quality_columns_match_header_witness :
    List.Sorted stringLe (headerColumns true) ∧
    (evaluateCriteria billingApp
        (((getEnabledCriteria true).map (criterionResult (fun _ => true))).reverse)).quality.map
      (fun q => q.reference) = headerColumns true :=
  quality_columns_match_header true (fun _ => true) billingApp _ (List.reverse_perm _)

/-- C2: for every resource, the report produced by `evaluateCriteria` holds
exactly one `QualityCriterion` per enabled criterion — its length equals the
size of the enabled-criteria set — regardless of the order in which the
individual evaluators resolve (the arrival permutation). -/
theorem quality_count_eq_enabled_count (runtimeEnabled : Bool)
    (complies : CriterionDef → Bool) (app : App) (arrival : List QualityCriterion)
    (h : arrival.Perm ((getEnabledCriteria runtimeEnabled).map (criterionResult complies))) :
    (evaluateCriteria app arrival).quality.length =
      (getEnabledCriteria runtimeEnabled).length := by
  have h₁ := (List.perm_insertionSort qualityLe arrival).length_eq
  have h₂ := h.length_eq
  show (List.insertionSort qualityLe arrival).length = _
  rw [h₁, h₂, List.length_map]

/-- Witness for C2 at a concrete input: runtime evaluation off, no evaluator
complying, results arriving in reverse reference order. -/
theorem quality_count_eq_enabled_count_witness :
    (evaluateCriteria billingApp
        (((getEnabledCriteria false).map (criterionResult (fun _ => false))).reverse)).quality.length =
      (getEnabledCriteria false).length :=
  quality_count_eq_enabled_count false (fun _ => false) billingApp _ (List.reverse_perm _)

/-- C3: a criterion definition is in the enabled set iff its `enabled` flag
is true and (it is not a runtime criterion, or the run has runtime
evaluation turned on); for the default catalog, `getEnabledCriteria false`
and `getEnabledCriteria true` differ exactly by the runtime-flagged entry:
`APP-R00` is excluded when disabled and included when enabled, while
`APP-DF01` and `APP-DF02` are always included. -/
theorem enabled_criteria_characterization :
    (∀ (criteria : CriterionDef) (runtimeEnabled : Bool),
        criteria ∈ getEnabledCriteria runtimeEnabled ↔
          criteria ∈ getCriteria ∧ criteria.enabled = true ∧
            (criteria.atRuntime = false ∨ runtimeEnabled = true)) ∧
    getEnabledCriteria false = [nameNamingConvention, descriptionMinLength] ∧
    getEnabledCriteria true = [nameNamingConvention, descriptionMinLength, appUsage] := by
  refine ⟨?_, by decide, by decide⟩
  intro criteria runtimeEnabled
  simp only [getEnabledCriteria, List.mem_insertionSort, List.mem_filter]
  rw [enabledCond_iff]

/-! ## Regular expressions

A small executable regular-expression engine (Brzozowski derivatives) used
to embed the JavaScript regex literal `APP_NAME_REGEX` (line 21). The
pattern is anchored (`^...$`), so matching is whole-string matching. -/

/-- Regular expressions over characters: the empty language, the empty
string, a single character satisfying a predicate, concatenation,
alternation and Kleene star. -/
inductive Regex where
  | none : Regex
  | eps : Regex
  | pred : (Char → Bool) → Regex
  | cat : Regex → Regex → Regex
  | alt : Regex → Regex → Regex
  | star : Regex → Regex

/-- Whether a regex accepts the empty string. -/
def Regex.nullable : Regex → Bool
  | .none => false
  | .eps => true
  | .pred _ => false
  | .cat r s => r.nullable && s.nullable
  | .alt r s => r.nullable || s.nullable
  | .star _ => true

/-- Smart concatenation (keeps derivatives small). -/
def Regex.scat : Regex → Regex → Regex
  | .none, _ => .none
  | .eps, s => s
  | r, s => .cat r s

/-- Smart alternation (keeps derivatives small). -/
def Regex.salt : Regex → Regex → Regex
  | .none, s => s
  | r, .none => r
  | r, s => .alt r s

/-- Brzozowski derivative of a regex with respect to one character. -/
def Regex.deriv : Regex → Char → Regex
  | .none, _ => .none
  | .eps, _ => .none
  | .pred p, c => if p c then .eps else .none
  | .cat r s, c =>
      if r.nullable then .salt (.scat (r.deriv c) s) (s.deriv c)
      else .scat (r.deriv c) s
  | .alt r s, c => .salt (r.deriv c) (s.deriv c)
  | .star r, c => .scat (r.deriv c) (.star r)

/-- Whole-string regex matching by iterated derivatives. -/
def Regex.matches (r : Regex) (s : String) : Bool :=
  (s.data.foldl Regex.deriv r).nullable

/-- `r?` (the regex postfix optional operator). -/
def Regex.opt (r : Regex) : Regex := .alt r .eps

/-- `r+` (one or more repetitions). -/
def Regex.plus (r : Regex) : Regex := .cat r (.star r)

/-- A single literal character. -/
def Regex.chr (c : Char) : Regex := .pred (fun d => d == c)

/-- The character class `\w` of JavaScript regexes: ASCII letters, digits
and underscore (case-sensitive by construction: both cases are distinct
members). -/
def wordClass : Regex := .pred (fun c => c.isAlpha || c.isDigit || c == '_')

/-- `\w+( \w+)*`: one or more words separated by single spaces. -/
def wordsRegex : Regex :=
  .cat (Regex.plus wordClass) (.star (.cat (Regex.chr ' ') (Regex.plus wordClass)))

/-- ` \- ` inside the pattern: the literal separator space-dash-space. -/
def sepRegex : Regex := .cat (Regex.chr ' ') (.cat (Regex.chr '-') (Regex.chr ' '))

/-- `APP_NAME_REGEX` (line 21): `^(\w+( \w+)* \- )?\w+( \w+)*( \- \w+)?$` —
an optional namespace block (words followed by the separator), then one or
more words, then an optional country suffix (the separator followed by one
word); anchored to the whole name. -/
def APP_NAME_REGEX : Regex :=
  .cat (Regex.opt (.cat wordsRegex sepRegex))
    (.cat wordsRegex (Regex.opt (.cat sepRegex (Regex.plus wordClass))))

/-! ## Criterion evaluators (lines 176-195) -/

/-- `evaluateNamingConvention` (lines 176-178) returns
`Rx.of(StringUtils.matches(actual, expectedRegex))`; the wrapped boolean.

Modelled from the spec: `StringUtils.matches` (lib/string-utils, not under
`src/`) tests the string against the regex; as `APP_NAME_REGEX` is anchored
on both sides, this is whole-string matching. -/
def evaluateNamingConvention (expectedRegex : Regex) (actual : String) : Bool :=
  expectedRegex.matches actual

/-- `evaluateMinimumLength` (lines 180-182): `Rx.of(expected <= actual)`. -/
def evaluateMinimumLength (expected actual : Nat) : Bool :=
  decide (expected ≤ actual)

/-- The JavaScript `TypeError` raised when a property of
`undefined`/`null` is dereferenced. -/
inductive EvalError where
  | typeError : EvalError
  deriving DecidableEq, Repr

/-- The `APP-DF02` evaluate closure of the catalog (line 126):
`app => this.evaluateMinimumLength(DESCRIPTION_MIN_LENGTH, app.description.length)`.
Reading `.length` of an absent description throws before
`evaluateMinimumLength` is entered; the throw is embedded as `Except.error`. -/
def descriptionMinLengthEvaluate (app : App) : Except EvalError Bool :=
  match app.description with
  | some description =>
      Except.ok (evaluateMinimumLength DESCRIPTION_MIN_LENGTH description.length)
  | Option.none => Except.error EvalError.typeError

/-- `hit.meta` of an ElasticSearch hit (line 193). -/
structure HitMeta where
  total : Nat
  deriving DecidableEq, Repr

/-- One element of the stream returned by `elasticsearch.searchHits`. -/
structure Hit where
  meta : HitMeta
  deriving DecidableEq, Repr

/-- The argument tuple `evaluateUsage` hands to `elasticsearch.searchHits`
(lines 185-191): index, time window, scoping terms and maximum hit count. -/
structure SearchHitsRequest where
  index : String
  fromDate : String
  toDate : String
  terms : List (String × String)
  size : Nat
  deriving DecidableEq, Repr

/-- The request side of `evaluateUsage` (lines 184-191): one query over the
configured window, scoped to `[['application', app.id]]`, asking for at
most `ONLY_ONE_ES_RESULT` hits. -/
def usageSearchRequest (esIndex fromDate toDate : String) (app : App) : SearchHitsRequest :=
  { index := esIndex
    fromDate := fromDate
    toDate := toDate
    terms := [("application", app.id)]
    size := ONLY_ONE_ES_RESULT }

/-- The response side of `evaluateUsage` (lines 191-194): take at most
`ONLY_ONE_ES_RESULT` element of the hit stream and map each to
`hit.meta.total > 0`. -/
def evaluateUsage (hits : List Hit) : List Bool :=
  (hits.take ONLY_ONE_ES_RESULT).map (fun hit => decide (hit.meta.total > 0))

/-- C5: the `APP-DF02` evaluator complies iff the description length is at
least the configured minimum, which defaults to 30; lengths 29 and 30
against minimum 30 give false and true respectively. -/
theorem minimum_length_complies_iff :
    (∀ expected actual : Nat,
        evaluateMinimumLength expected actual = true ↔ expected ≤ actual) ∧
    DESCRIPTION_MIN_LENGTH = 30 ∧
    evaluateMinimumLength DESCRIPTION_MIN_LENGTH 29 = false ∧
    evaluateMinimumLength DESCRIPTION_MIN_LENGTH 30 = true := by
  refine ⟨fun expected actual => ?_, rfl, by decide, by decide⟩
  simp [evaluateMinimumLength]

/-- C6: the `APP-DF01` evaluator applies the anchored structural pattern:
`"Billing - Invoicing - FR"` complies, `"invalid_name!"` does not (its
prefix `"invalid_name"` alone would comply — the trailing `!` is rejected
because the pattern is anchored to the whole name). -/
theorem naming_convention_scenarios :
    evaluateNamingConvention APP_NAME_REGEX "Billing - Invoicing - FR" = true ∧
    evaluateNamingConvention APP_NAME_REGEX "invalid_name!" = false ∧
    evaluateNamingConvention APP_NAME_REGEX "invalid_name" = true :=
  ⟨by decide, by decide, by decide⟩

/-- C7: `evaluateUsage` issues one search request with `size = 1`
(`ONLY_ONE_ES_RESULT`) scoped to the application's id; it takes at most one
hit from the response stream and resolves complied = true iff the reported
total is positive — totals 0 and 3 give false and true. -/
theorem usage_complies_iff_total_positive :
    (∀ (esIndex fromDate toDate : String) (app : App),
        (usageSearchRequest esIndex fromDate toDate app).size = 1 ∧
        (usageSearchRequest esIndex fromDate toDate app).terms =
          [("application", app.id)]) ∧
    (∀ (hit : Hit) (rest : List Hit),
        evaluateUsage (hit :: rest) = [decide (hit.meta.total > 0)]) ∧
    (∀ hits : List Hit, (evaluateUsage hits).length ≤ 1) ∧
    evaluateUsage [⟨⟨0⟩⟩] = [false] ∧
    evaluateUsage [⟨⟨3⟩⟩] = [true] := by
  refine ⟨fun _ _ _ _ => ⟨rfl, rfl⟩, fun _ _ => rfl, fun hits => ?_, by decide, by decide⟩
  simp only [evaluateUsage, ONLY_ONE_ES_RESULT, List.length_map, List.length_take]
  omega

/-- C9: on a resource with an absent description, the `APP-DF02` closure
fails with a `TypeError` instead of resolving a compliance boolean; it never
produces complied = false for a missing description. -/
theorem missing_description_throws (app : App) (h : app.description = none) :
    descriptionMinLengthEvaluate app = Except.error EvalError.typeError ∧
    ∀ complied : Bool, descriptionMinLengthEvaluate app ≠ Except.ok complied := by
  refine ⟨?_, ?_⟩ <;> simp [descriptionMinLengthEvaluate, h]

/-- A concrete application without a description, for the C9 witness. -/
def undocumentedApp : App :=
  { id := "7d3a9c2e-5b1f-4e8d-9c6a-2f4b8e0d1a37"
    name := "Billing"
    description := none }

/-- Witness for C9 at a concrete input. -/
theorem missing_description_throws_witness :
    descriptionMinLengthEvaluate undocumentedApp = Except.error EvalError.typeError ∧
    ∀ complied : Bool, descriptionMinLengthEvaluate undocumentedApp ≠ Except.ok complied :=
  missing_description_throws undocumentedApp rfl

/-! ## Report sink (`ExtractApplicationQualityCSVReporter`, lines 203-226) -/

/-- JavaScript stringification of a boolean, as performed by
`Array.prototype.join` on the `complied` flags (line 221). -/
def boolString : Bool → String
  | true => "true"
  | false => "false"

/-- JavaScript `Array.prototype.join(sep)`. -/
def joinSep (sep : String) : List String → String
  | [] => ""
  | [entry] => entry
  | entry :: rest => entry ++ sep ++ joinSep sep rest

/-- The header line printed by `doComplete` (line 216). -/
def headerLine (runtimeEnabled : Bool) : String :=
  "Application id,Application name," ++
    joinSep CSV_SEPARATOR (headerColumns runtimeEnabled)

/-- One data line printed by `doComplete` (lines 218-222): the application
id, its name and each `complied` flag, joined by the separator. -/
def rowLine (appQuality : AppQuality) : String :=
  appQuality.app.id ++ CSV_SEPARATOR ++ appQuality.app.name ++ CSV_SEPARATOR ++
    joinSep CSV_SEPARATOR
      (appQuality.quality.map (fun criteria => boolString criteria.complied))

/-- `doNext` (lines 210-212): push the received record onto the
accumulator; nothing is printed. -/
def doNext (qualityApps : List AppQuality) (next : AppQuality) : List AppQuality :=
  qualityApps ++ [next]

/-- `doComplete` (lines 214-224): the raw lines printed on completion — the
header, then one line per accumulated record in stored order. -/
def doComplete (runtimeEnabled : Bool) (qualityApps : List AppQuality) : List String :=
  headerLine runtimeEnabled :: qualityApps.map rowLine

/-- Modelled from the spec: the `CliCommandReporter` base class
(lib/cli-command, not under `src/`) dispatches each upstream `next`
notification to `doNext` and the terminal completion notification to
`doComplete` (spec §4.5: the sink accumulates every report until the
upstream sequence signals completion). -/
inductive SinkEvent where
  | next : AppQuality → SinkEvent
  | complete : SinkEvent

/-- Reporter state: the `qualityApps` accumulator (line 207) and the raw
lines printed so far. -/
structure SinkState where
  qualityApps : List AppQuality
  output : List String
  deriving DecidableEq, Repr

/-- One reporter notification. -/
def sinkStep (runtimeEnabled : Bool) (st : SinkState) : SinkEvent → SinkState
  | .next appQuality => { st with qualityApps := doNext st.qualityApps appQuality }
  | .complete => { st with output := st.output ++ doComplete runtimeEnabled st.qualityApps }

/-- Run the reporter over a sequence of upstream notifications. -/
def runSink (runtimeEnabled : Bool) (events : List SinkEvent) : SinkState :=
  events.foldl (sinkStep runtimeEnabled) { qualityApps := [], output := [] }

theorem runSink_nexts (runtimeEnabled : Bool) (st : SinkState) (reports : List AppQuality) :
    (reports.map SinkEvent.next).foldl (sinkStep runtimeEnabled) st =
      { qualityApps := st.qualityApps ++ reports, output := st.output } := by
  induction reports generalizing st with
  | nil => simp
  | cons report rest ih =>
    simp only [List.map_cons, List.foldl_cons, ih, sinkStep, doNext]
    simp

/-- C4: the report sink prints nothing while only `next` notifications have
arrived; once the upstream sequence completes, it prints exactly one header
line followed by one data line per accumulated record, in the order the
records were received by the sink. -/
theorem sink_emits_header_then_rows_in_arrival_order (runtimeEnabled : Bool)
    (reports : List AppQuality) :
    (runSink runtimeEnabled (reports.map SinkEvent.next)).output = [] ∧
    (runSink runtimeEnabled (reports.map SinkEvent.next ++ [SinkEvent.complete])).output =
      headerLine runtimeEnabled :: reports.map rowLine := by
  constructor
  · simp [runSink, runSink_nexts]
  · simp [runSink, List.foldl_append, runSink_nexts, sinkStep, doComplete]

/-! ## CSV field counting (C10) -/

/-- Number of separator characters in a line. -/
def commaCount (s : String) : Nat := s.data.count ','

/-- Number of separator-delimited fields of a line: one more than its
separator count (the separator is the single character `','`). -/
def fieldCount (s : String) : Nat := commaCount s + 1

theorem commaCount_append (a b : String) :
    commaCount (a ++ b) = commaCount a + commaCount b := by
  simp [commaCount, String.data_append, List.count_append]

theorem commaCount_boolString (b : Bool) : commaCount (boolString b) = 0 := by
  cases b <;> decide

theorem commaCount_joinSep (entries : List String)
    (h : ∀ e ∈ entries, commaCount e = 0) :
    commaCount (joinSep CSV_SEPARATOR entries) = entries.length - 1 := by
  induction entries with
  | nil => decide
  | cons entry rest ih =>
    cases rest with
    | nil => simpa [joinSep] using h entry (by simp)
    | cons second rest' =>
      have he : commaCount entry = 0 := h entry (by simp)
      have ih' := ih (fun e he' => h e (by simp [he']))
      show commaCount (entry ++ CSV_SEPARATOR ++ joinSep CSV_SEPARATOR (second :: rest')) = _
      rw [commaCount_append, commaCount_append, he, ih']
      have : commaCount CSV_SEPARATOR = 1 := by decide
      rw [this]
      simp only [List.length_cons]
      omega

theorem fieldCount_rowLine (appQuality : AppQuality) (h : appQuality.quality ≠ []) :
    fieldCount (rowLine appQuality) =
      commaCount appQuality.app.id + commaCount appQuality.app.name +
        appQuality.quality.length + 2 := by
  have hq : ∀ e ∈ appQuality.quality.map (fun criteria => boolString criteria.complied),
      commaCount e = 0 := by
    intro e he
    obtain ⟨q, _, rfl⟩ := List.mem_map.mp he
    exact commaCount_boolString q.complied
  have hlen : appQuality.quality.length ≠ 0 := by
    simpa [List.length_eq_zero] using h
  show commaCount (appQuality.app.id ++ CSV_SEPARATOR ++ appQuality.app.name ++
      CSV_SEPARATOR ++ joinSep CSV_SEPARATOR
        (appQuality.quality.map (fun criteria => boolString criteria.complied))) + 1 = _
  rw [commaCount_append, commaCount_append, commaCount_append, commaCount_append,
    commaCount_joinSep _ hq]
  have : commaCount CSV_SEPARATOR = 1 := by decide
  rw [this]
  simp only [List.length_map]
  omega

/-- A concrete record whose application name contains the separator, with
one quality result per criterion of `getEnabledCriteria false` (C10). -/
def commaNamedAppQuality : AppQuality :=
  { app := { id := "52e7b0d4-88a1-47c3-b2e9-6d5f0c3a7e19"
             name := "Billing, Invoicing"
             description := some "Invoicing operations for the billing scope." }
    quality := (getEnabledCriteria false).map (criterionResult (fun _ => true)) }

/-- C10: the sink performs no CSV escaping — a data row has exactly
`2 + |EnabledCriteriaSet|` separator-delimited fields (the header's column
count) iff the application's id and name contain no separator character;
for the concrete record whose name contains `','`, the emitted row has more
fields than the header, breaking the fixed column contract. -/
theorem row_field_count_breaks_on_separator (appQuality : AppQuality)
    (h : appQuality.quality ≠ []) :
    (fieldCount (rowLine appQuality) = 2 + appQuality.quality.length ↔
      commaCount appQuality.app.id = 0 ∧ commaCount appQuality.app.name = 0) ∧
    (∀ runtimeEnabled : Bool,
        fieldCount (headerLine runtimeEnabled) =
          2 + (getEnabledCriteria runtimeEnabled).length) ∧
    commaNamedAppQuality.quality.length = (getEnabledCriteria false).length ∧
    commaCount commaNamedAppQuality.app.name ≠ 0 ∧
    fieldCount (rowLine commaNamedAppQuality) =
      2 + commaNamedAppQuality.quality.length + 1 ∧
    fieldCount (rowLine commaNamedAppQuality) > fieldCount (headerLine false) := by
  refine ⟨?_, fun runtimeEnabled => by cases runtimeEnabled <;> decide,
    by decide, by decide, by decide, by decide⟩
  rw [fieldCount_rowLine appQuality h]
  omega

/-- Witness for C10 at the concrete comma-named record. -/
theorem row_field_count_breaks_on_separator_witness :
    (fieldCount (rowLine commaNamedAppQuality) = 2 + commaNamedAppQuality.quality.length ↔
      commaCount commaNamedAppQuality.app.id = 0 ∧
        commaCount commaNamedAppQuality.app.name = 0) ∧
    (∀ runtimeEnabled : Bool,
        fieldCount (headerLine runtimeEnabled) =
          2 + (getEnabledCriteria runtimeEnabled).length) ∧
    commaNamedAppQuality.quality.length = (getEnabledCriteria false).length ∧
    commaCount commaNamedAppQuality.app.name ≠ 0 ∧
    fieldCount (rowLine commaNamedAppQuality) =
      2 + commaNamedAppQuality.quality.length + 1 ∧
    fieldCount (rowLine commaNamedAppQuality) > fieldCount (headerLine false) :=
  row_field_count_breaks_on_separator commaNamedAppQuality (by decide)

/-! ## Resource discovery (filtered-listing mode, C8)

`definition` (lines 91-100): without `filter-by-id`, the run calls
`managementApi.listApplications(filters, this.argv['delay-period'],
LIST_APPLICATIONS_TIMEOUT)`, where `delay-period` defaults to
`DELAY_PERIOD_DEFAULT = 200`. -/

/-- How the discovery sequence terminated. -/
inductive DiscoveryTerminal where
  | completed : DiscoveryTerminal
  | timeout : DiscoveryTerminal
  deriving DecidableEq, Repr

/-- Result of the listing: the emitted applications and the terminal
signal. -/
structure DiscoveryOutcome where
  emitted : List App
  terminal : DiscoveryTerminal
  deriving DecidableEq, Repr

/-- The behaviour of the remote listing as seen by the client: each
application resolves at some time (spacing between emissions is produced by
the delay period), and the listing as a whole completes at `completesAt`
(`none`: it never completes, e.g. no first page ever resolves). -/
structure ListingSource where
  emissions : List (Nat × App)
  completesAt : Option Nat

/-- Modelled from the spec: `managementApi.listApplications`
(lib/management-api, not under `src/`): consecutive emissions are spaced by
`delayPeriod`; the whole listing is bounded by `timeoutMs`, after which it
fails with `Timeout` and no further resources are emitted — only
applications resolving strictly before the timeout are emitted (already
emitted ones are not retracted). -/
def listApplications (source : ListingSource) (delayPeriod timeoutMs : Nat) : DiscoveryOutcome :=
  match source.completesAt with
  | some t =>
      if t < timeoutMs then
        { emitted := source.emissions.map (fun e => e.2), terminal := .completed }
      else
        { emitted := (source.emissions.filter (fun e => decide (e.1 < timeoutMs))).map
            (fun e => e.2)
          terminal := .timeout }
  | Option.none =>
      { emitted := (source.emissions.filter (fun e => decide (e.1 < timeoutMs))).map
          (fun e => e.2)
        terminal := .timeout }

/-- Outcome of one whole filtered-listing run: either the completed CSV
table, or a terminal failure (spec §4.5/§7: on upstream failure the sink
emits no table). -/
inductive RunOutput where
  | table : List String → RunOutput
  | failure : DiscoveryTerminal → RunOutput
  deriving DecidableEq, Repr

/-- The filtered-listing pipeline of `definition` (lines 87-106) end to
end: list applications with the configured delay period and
`LIST_APPLICATIONS_TIMEOUT`, evaluate each emitted application (the
evaluators resolving to `complies`, fan-in arriving in registry-completion
order), and feed the reports into the CSV reporter. -/
def runFilteredListing (runtimeEnabled : Bool) (complies : CriterionDef → Bool)
    (source : ListingSource) : RunOutput :=
  let outcome := listApplications source DELAY_PERIOD_DEFAULT LIST_APPLICATIONS_TIMEOUT
  match outcome.terminal with
  | .completed =>
      .table (runSink runtimeEnabled
        ((outcome.emitted.map (fun app => SinkEvent.next
          (evaluateCriteria app
            ((getEnabledCriteria runtimeEnabled).map (criterionResult complies))))) ++
          [SinkEvent.complete])).output
  | .timeout => .failure .timeout

/-- C8: filtered listing is invoked with the default delay period 200 and
overall timeout 30000; if no application resolves before the timeout and
the listing does not complete before it, the listing fails with `Timeout`,
emits no resource, and the run emits no table. -/
theorem filtered_listing_timeout (runtimeEnabled : Bool) (complies : CriterionDef → Bool)
    (source : ListingSource)
    (hEmissions : ∀ e ∈ source.emissions, LIST_APPLICATIONS_TIMEOUT ≤ e.1)
    (hComplete : ∀ t ∈ source.completesAt, LIST_APPLICATIONS_TIMEOUT ≤ t) :
    DELAY_PERIOD_DEFAULT = 200 ∧
    LIST_APPLICATIONS_TIMEOUT = 30000 ∧
    listApplications source DELAY_PERIOD_DEFAULT LIST_APPLICATIONS_TIMEOUT =
      { emitted := [], terminal := .timeout } ∧
    runFilteredListing runtimeEnabled complies source = .failure .timeout := by
  have hfilter : source.emissions.filter (fun e => decide (e.1 < LIST_APPLICATIONS_TIMEOUT)) = [] := by
    rw [List.filter_eq_nil_iff]
    intro e he
    simpa using Nat.not_lt.mpr (hEmissions e he)
  have hlist : listApplications source DELAY_PERIOD_DEFAULT LIST_APPLICATIONS_TIMEOUT =
      { emitted := [], terminal := .timeout } := by
    unfold listApplications
    cases hc : source.completesAt with
    | none => simp [hfilter]
    | some t =>
        have ht := hComplete t (by simp [hc])
        simp [Nat.not_lt.mpr ht, hfilter]
  refine ⟨rfl, rfl, hlist, ?_⟩
  unfold runFilteredListing
  rw [hlist]

/-- A listing source that never resolves anything, for the C8 witness. -/
def silentSource : ListingSource :=
  { emissions := [], completesAt := none }

/-- Witness for C8 at the concrete never-resolving source. -/
theorem filtered_listing_timeout_witness :
    DELAY_PERIOD_DEFAULT = 200 ∧
    LIST_APPLICATIONS_TIMEOUT = 30000 ∧
    listApplications silentSource DELAY_PERIOD_DEFAULT LIST_APPLICATIONS_TIMEOUT =
      { emitted := [], terminal := .timeout } ∧
    runFilteredListing false (fun _ => true) silentSource = .failure .timeout :=
  filtered_listing_timeout false (fun _ => true) silentSource
    (by intro e he; simp [silentSource] at he) (by intro t ht; simp [silentSource] at ht)

end ExtractApplicationQuality
